import Mathlib

/-!
Verification of the reporting-framework generation engine and plugin registry.

The engine (`src/reports/report-engine.ts`) is embedded shallowly: JavaScript
strings become `List Char`, JavaScript runtime values become the inductive
`Value` (JSON values plus `undefined`), and a JavaScript object becomes an
insertion-ordered association list `Ctx`.  The plugin registry and validator
(`src/plugins/plugin-registry.ts`, the validation half of
`src/plugins/plugin-config.ts`, and the alternate registry found in the
unnamed source part) are embedded over a record of the observable plugin
surface. Fallible operations return `Option` / explicit outcome types.
-/

namespace ReportingFramework

/-- Character sequences: the model of JavaScript strings used by the engine. -/
abbrev Chars := List Char

/-- ASCII whitespace test, the fragment of the JavaScript `\s` class and of
`String.prototype.trim` that the engine's data can contain. -/
def wsp (c : Char) : Bool :=
  c = ' ' || c = '\t' || c = '\n' || c = '\r'

/-- Model of `String.prototype.trim`: drop leading and trailing whitespace. -/
def trimChars (s : Chars) : Chars :=
  ((s.dropWhile wsp).reverse.dropWhile wsp).reverse

/-- JavaScript runtime values as they flow through the engine: JSON values
plus `undefined`.  Number literals keep their lexeme. -/
inductive Value where
  | undefined : Value
  | null : Value
  | bool : Bool → Value
  | num : Chars → Value
  | str : Chars → Value
  | arr : List Value → Value
  | obj : List (Chars × Value) → Value

instance : Inhabited Value := ⟨Value.undefined⟩

/-- A JavaScript object in insertion order: the generation context shape. -/
abbrev Ctx := List (Chars × Value)

/-- Property read `o[k]` on an object: `undefined` when the key is absent. -/
def ctxGet (m : Ctx) (k : Chars) : Value :=
  ((m.find? (fun kv => kv.1 == k)).map Prod.snd).getD .undefined

/-- Key-presence test on an object. -/
def ctxHas (m : Ctx) (k : Chars) : Bool :=
  m.any (fun kv => kv.1 == k)

/-- In-place update of the entry for key `k` (used when the key exists). -/
def replaceKey (k : Chars) (v : Value) (kv : Chars × Value) : Chars × Value :=
  if kv.1 == k then (k, v) else kv

/-- Property write `o[k] = v`: JavaScript assignment keeps the insertion
position of an existing key and appends a brand-new key at the end. -/
def ctxSet (m : Ctx) (k : Chars) (v : Value) : Ctx :=
  if ctxHas m k then m.map (replaceKey k v) else m ++ [(k, v)]

def kBundle : Chars := "bundle".data

def kStats : Chars := "stats".data

def kSamples : Chars := "samples".data

def kMetadata : Chars := "metadata".data

def kMain : Chars := "main".data

def kTimestamp : Chars := "timestamp".data

def kTitle : Chars := "title".data

def kCtxRoot : Chars := "ctx".data

def tStringList : Chars := "string_list".data

def tMarkdown : Chars := "markdown".data

def skipWs (s : Chars) : Chars := s.dropWhile wsp

/-- Hexadecimal digit test (for string `\u` escapes). -/
def isHexDig (c : Char) : Bool :=
  c.isDigit || (c.toNat ≥ 97 && c.toNat ≤ 102) || (c.toNat ≥ 65 && c.toNat ≤ 70)

/-- Hexadecimal digit value (for string `\u` escapes). -/
def hexVal (c : Char) : Nat :=
  if c.toNat ≥ 97 then c.toNat - 87
  else if c.toNat ≥ 65 then c.toNat - 55
  else c.toNat - 48

/-- Single-character string escapes of JSON. -/
def escChar (e : Char) : Option Char :=
  if e = '"' then some '"'
  else if e = '\\' then some '\\'
  else if e = '/' then some '/'
  else if e = 'b' then some (Char.ofNat 8)
  else if e = 'f' then some (Char.ofNat 12)
  else if e = 'n' then some '\n'
  else if e = 'r' then some '\r'
  else if e = 't' then some '\t'
  else none

/-- Parse the body of a JSON string (after the opening quote); returns the
decoded characters and the remaining input after the closing quote. -/
def parseStrBody : Nat → Chars → Option (Chars × Chars)
  | 0, _ => none
  | _ + 1, [] => none
  | fuel + 1, c :: rest =>
    if c = '"' then some ([], rest)
    else if c = '\\' then
      match rest with
      | [] => none
      | e :: rest2 =>
        if e = 'u' then
          match rest2 with
          | h1 :: h2 :: h3 :: h4 :: rest3 =>
            if isHexDig h1 && isHexDig h2 && isHexDig h3 && isHexDig h4 then
              (parseStrBody fuel rest3).map (fun p =>
                (Char.ofNat (hexVal h1 * 4096 + hexVal h2 * 256 + hexVal h3 * 16 + hexVal h4) :: p.1, p.2))
            else none
          | _ => none
        else
          match escChar e with
          | some ch => (parseStrBody fuel rest2).map (fun p => (ch :: p.1, p.2))
          | none => none
    else if c.toNat < 32 then none
    else (parseStrBody fuel rest).map (fun p => (c :: p.1, p.2))

/-- Exponent part of the JSON number grammar (must consume the rest). -/
def numExp (s : Chars) : Bool :=
  match s with
  | [] => true
  | e :: rest =>
    if e = 'e' || e = 'E' then
      let rest2 := match rest with
        | c :: r2 => if c = '+' || c = '-' then r2 else rest
        | [] => rest
      match rest2 with
      | d :: _ => d.isDigit && (rest2.dropWhile Char.isDigit).isEmpty
      | [] => false
    else false

/-- Fraction-then-exponent part of the JSON number grammar. -/
def numFrac (s : Chars) : Bool :=
  match s with
  | '.' :: rest =>
    match rest with
    | d :: _ => if d.isDigit then numExp (rest.dropWhile Char.isDigit) else false
    | [] => false
  | _ => numExp s

/-- Full JSON number grammar check for a candidate lexeme. -/
def numOk (lex : Chars) : Bool :=
  let s1 := match lex with
    | c :: rest => if c = '-' then rest else lex
    | [] => lex
  match s1 with
  | [] => false
  | c :: rest =>
    if c = '0' then numFrac rest
    else if c.isDigit then numFrac (rest.dropWhile Char.isDigit)
    else false

/-- Greedy number lexeme at the head of the input. -/
def numLexeme (s : Chars) : Chars :=
  s.takeWhile (fun c =>
    c.isDigit || c = '-' || c = '+' || c = '.' || c = 'e' || c = 'E')

/-- Comma-separated array items after the opening bracket (non-empty case).
`pv` is the value parser one fuel level down. -/
def parseItems (pv : Chars → Option (Value × Chars)) :
    Nat → Chars → Option (List Value × Chars)
  | 0, _ => none
  | fuel + 1, s =>
    match pv s with
    | none => none
    | some (v, rest) =>
      match rest.dropWhile wsp with
      | ',' :: rest2 => (parseItems pv fuel rest2).map (fun p => (v :: p.1, p.2))
      | ']' :: rest2 => some ([v], rest2)
      | _ => none

/-- Comma-separated object members after the opening brace (non-empty case). -/
def parseMembers (pv : Chars → Option (Value × Chars)) :
    Nat → Chars → Option (List (Chars × Value) × Chars)
  | 0, _ => none
  | fuel + 1, s =>
    match s.dropWhile wsp with
    | '"' :: rest =>
      match parseStrBody (rest.length + 1) rest with
      | none => none
      | some (key, rest2) =>
        match rest2.dropWhile wsp with
        | ':' :: rest3 =>
          match pv rest3 with
          | none => none
          | some (v, rest4) =>
            match rest4.dropWhile wsp with
            | ',' :: rest5 =>
              (parseMembers pv fuel rest5).map (fun p => ((key, v) :: p.1, p.2))
            | '}' :: rest5 => some ([(key, v)], rest5)
            | _ => none
        | _ => none
    | _ => none

/-- One JSON value at the head of the input (leading whitespace allowed);
returns the value and the unconsumed remainder. -/
def parseVal : Nat → Chars → Option (Value × Chars)
  | 0, _ => none
  | fuel + 1, s =>
    match s.dropWhile wsp with
    | 'n' :: 'u' :: 'l' :: 'l' :: rest => some (.null, rest)
    | 't' :: 'r' :: 'u' :: 'e' :: rest => some (.bool true, rest)
    | 'f' :: 'a' :: 'l' :: 's' :: 'e' :: rest => some (.bool false, rest)
    | '"' :: rest =>
      (parseStrBody (rest.length + 1) rest).map (fun p => (Value.str p.1, p.2))
    | '[' :: rest =>
      match rest.dropWhile wsp with
      | ']' :: rest2 => some (.arr [], rest2)
      | _ => (parseItems (parseVal fuel) fuel rest).map (fun p => (.arr p.1, p.2))
    | '{' :: rest =>
      match rest.dropWhile wsp with
      | '}' :: rest2 => some (.obj [], rest2)
      | _ => (parseMembers (parseVal fuel) fuel rest).map (fun p => (.obj p.1, p.2))
    | c :: rest =>
      if c = '-' || c.isDigit then
        let lex := numLexeme (c :: rest)
        if numOk lex then some (.num lex, (c :: rest).drop lex.length) else none
      else none
    | [] => none

/-- Model of `JSON.parse`: parse one value and require only whitespace after. -/
def parseJson (s : Chars) : Option Value :=
  match parseVal (s.length + 1) s with
  | some (v, rest) => if (rest.dropWhile wsp).isEmpty then some v else none
  | none => none

def fence3 : Chars := "```".data

def fenceJsonTag : Chars := "```json".data

/-- Model of `replace(/^\x60\x60\x60json\s*\x2F i, "")`: case-insensitively
drop a leading triple-backtick marker tagged `json` plus following space. -/
def stripLeadFenceJson (s : Chars) : Chars :=
  if (s.take 7).map Char.toLower = fenceJsonTag then (s.drop 7).dropWhile wsp
  else s

/-- Drop a leading untagged triple-backtick marker plus following space. -/
def stripLeadFence (s : Chars) : Chars :=
  if s.take 3 = fence3 then (s.drop 3).dropWhile wsp else s

/-- Drop a trailing triple-backtick marker plus the space run before it. -/
def stripTailFence (s : Chars) : Chars :=
  if s.reverse.take 3 = fence3 then ((s.reverse.drop 3).dropWhile wsp).reverse
  else s

/-- The `cleanResponse` computation: trim, then the three fence strips. -/
def cleanFences (s : Chars) : Chars :=
  stripTailFence (stripLeadFence (stripLeadFenceJson (trimChars s)))

/-- The `string_list` branch: parse the fence-stripped response as JSON and
require an array, falling back to the trimmed raw response in a one-element
list on any failure (the thrown error is caught in the source). -/
def coerceStringList (response : Chars) : Value :=
  match parseJson (trimChars (cleanFences response)) with
  | some (Value.arr xs) => Value.arr xs
  | some _ => Value.arr [Value.str (trimChars response)]
  | none => Value.arr [Value.str (trimChars response)]

/-- Response coercion by declared variable type (the `let value` cascade). -/
def coerceResponse (vtype : Chars) (response : Chars) : Value :=
  if vtype = tStringList then coerceStringList response
  else if vtype = tMarkdown then Value.str (trimChars response)
  else Value.str response

/-- Property read through a value; `undefined`/`null`/non-objects give
`undefined`, like `v?.[k]` does for the keys the engine uses. -/
def getProp (v : Value) (k : Chars) : Value :=
  match v with
  | .obj fields => ctxGet fields k
  | _ => .undefined

/-- Model of `reference.split(".")` for JavaScript strings. -/
def splitDot : Chars → List Chars
  | [] => [[]]
  | c :: rest =>
    if c = '.' then [] :: splitDot rest
    else
      match splitDot rest with
      | [] => [[c]]
      | p :: ps => (c :: p) :: ps

/-- `ReportEngine.resolveInputReference`: dotted-path lookup rooted at
`bundle`, at `ctx` (the whole context), or else a direct context key. -/
def resolveInputReference (reference : Chars) (context : Ctx) : Value :=
  let parts := splitDot reference
  if parts.headI = kBundle then
    (parts.drop 1).foldl getProp (ctxGet context kBundle)
  else if parts.headI = kCtxRoot then
    (parts.drop 1).foldl getProp (Value.obj context)
  else ctxGet context reference

/-- A parsed specification variable. -/
structure VarDef where
  name : Chars
  vtype : Chars
  prompt_file : Chars
  inputs : List Chars

/-- JavaScript truthiness for the values the engine handles. -/
def truthy : Value → Bool
  | .undefined => false
  | .null => false
  | .bool b => b
  | .num lex =>
    let body := match lex with
      | c :: rest => if c = '-' || c = '+' then rest else lex
      | [] => lex
    !(body.takeWhile (fun c => c != 'e' && c != 'E')).all
      (fun c => c = '0' || c = '.')
  | .str s => !s.isEmpty
  | .arr _ => true
  | .obj _ => true

/-- JavaScript `a || b`. -/
def jsOr (a b : Value) : Value := if truthy a then a else b

/-- The fixed base of every prompt context: `bundle`, `stats`,
`samples` (the bundle's `main` sample set when truthy, else all samples),
and `metadata`, all derived from `context.bundle`.  The source reads
`context.bundle.stats` with plain (non-optional) property access, which
throws when the context's `bundle` is absent or null; this model is
therefore faithful only on contexts whose `bundle` key holds an object,
as every context built by `generateReport` does — theorems about prompt
contexts carry that as a hypothesis. -/
def promptBase (context : Ctx) : Ctx :=
  let b := ctxGet context kBundle
  [(kBundle, b),
   (kStats, getProp b kStats),
   (kSamples, jsOr (getProp (getProp b kSamples) kMain) (getProp b kSamples)),
   (kMetadata, getProp b kMetadata)]

/-- The short binding name for a declared input reference: second-to-last
dotted segment when there are more than two, else the last. -/
def shortKey (input : Chars) : Chars :=
  let parts := splitDot input
  if parts.length > 2 then parts.getD (parts.length - 2) []
  else parts.getD (parts.length - 1) []

/-- Bind each declared input under its short name. -/
def addInputs (varDef : VarDef) (context : Ctx) (pc : Ctx) : Ctx :=
  varDef.inputs.foldl
    (fun acc input => ctxSet acc (shortKey input) (resolveInputReference input context))
    pc

/-- The keys the overlay loop skips in the source. -/
def overlaySkip (k : Chars) : Bool :=
  k == kBundle || k == kStats || k == kSamples || k == kTimestamp

/-- Overlay every context entry except the skipped keys. -/
def overlayPrev (context : Ctx) (pc : Ctx) : Ctx :=
  context.foldl (fun acc kv => if overlaySkip kv.1 then acc else ctxSet acc kv.1 kv.2) pc

/-- The complete prompt-rendering context for one variable. -/
def buildPromptContext (varDef : VarDef) (context : Ctx) : Ctx :=
  overlayPrev context (addInputs varDef context (promptBase context))

/-- `generateVariable`, with the file system (`prompts`), the template
renderer (`render`) and the LLM client (`llm`) as oracles. -/
def generateVariable (prompts : Chars → Chars) (render : Chars → Ctx → Chars)
    (llm : Chars → Chars) (varDef : VarDef) (context : Ctx) : Value :=
  let promptTemplate := prompts varDef.prompt_file
  let prompt := render promptTemplate (buildPromptContext varDef context)
  let response := llm prompt
  coerceResponse varDef.vtype response

/-- The derived report title: capitalised plugin id plus a fixed suffix. -/
def deriveTitle (pluginId : Chars) : Chars :=
  (match pluginId with
   | [] => []
   | c :: rest => Char.toUpper c :: rest) ++ " Analysis Report".data

/-- The seed generation context of `generateReport`. -/
def seedContext (pluginId : Chars) (bundle : Value) (timestamp : Chars) : Ctx :=
  [(kBundle, bundle),
   (kStats, getProp bundle kStats),
   (kSamples, getProp bundle kSamples),
   (kTimestamp, Value.str timestamp),
   (kTitle, Value.str (deriveTitle pluginId))]

/-- The per-variable loop: generate, then store under the variable's name. -/
def runVariables (gen : VarDef → Ctx → Value) : List VarDef → Ctx → Ctx
  | [], context => context
  | v :: rest, context => runVariables gen rest (ctxSet context v.name (gen v context))

/-- Execution trace of the loop: for each variable, its name paired with the
generation context at the moment its prompt context is built. -/
def runTrace (gen : VarDef → Ctx → Value) : List VarDef → Ctx → List (Chars × Ctx)
  | [], _ => []
  | v :: rest, context =>
    (v.name, context) :: runTrace gen rest (ctxSet context v.name (gen v context))

/-- The generation context after all variables of a report run. -/
def generateReportCtx (prompts : Chars → Chars) (render : Chars → Ctx → Chars)
    (llm : Chars → Chars) (spec : List VarDef) (pluginId : Chars)
    (bundle : Value) (timestamp : Chars) : Ctx :=
  runVariables (generateVariable prompts render llm) spec
    (seedContext pluginId bundle timestamp)

/-- A plugin's declared ingestion capabilities. -/
structure IngestionCapabilities where
  file : Bool
  api : Bool
  fileFormats : Option (List String)
  apiEndpoints : Option (List String)

/-- The observable surface of a plugin instance: identity fields and, for
each optional method, whether it is implemented.  `getIngestionCapabilities`
is `none` when missing, `some (.error m)` when calling it throws `m`, and
`some (.ok caps)` when it returns. -/
structure FrameworkPlugin where
  id : String
  version : String
  description : String
  getIngestionCapabilities : Option (Except String IngestionCapabilities)
  ingestFromFile : Bool
  ingestFromAPI : Bool
  getAPIQuerySchema : Bool
  generate : Bool
  getSpecifications : Bool
  getPromptsDir : Bool
  getTemplatesDir : Bool

/-- Validation result shape `{valid, errors, warnings}`. -/
structure PluginValidationResult where
  valid : Bool
  errors : List String
  warnings : List String

def errNoId : String := "Plugin must have an \x27id\x27 property"

def errNoVersion : String := "Plugin must have a \x27version\x27 property"

def errNoDescription : String := "Plugin must have a \x27description\x27 property"

/-- The interpolated `Plugin "<id>"` opener shared by the id-bearing messages. -/
def quotedId (id : String) : String := "Plugin \"" ++ id ++ "\""

def errNoGIC (id : String) : String :=
  quotedId id ++ " must implement getIngestionCapabilities()"

def errGICThrew (id msg : String) : String :=
  quotedId id ++ " getIngestionCapabilities() threw an error: " ++ msg

def errNoMethod (id : String) : String :=
  quotedId id ++ " must support at least one ingestion method (file or API). Set either capabilities.file or capabilities.api to true."

def errNoIngestFromFile (id : String) : String :=
  quotedId id ++ " declares file ingestion support (file: true) but doesn\x27t implement ingestFromFile()"

def warnNoFileFormats (id : String) : String :=
  quotedId id ++ " supports file ingestion but doesn\x27t declare supported file formats in capabilities.fileFormats"

def warnFileUndeclared (id : String) : String :=
  quotedId id ++ " implements ingestFromFile() but declares file: false in capabilities. Consider setting file: true."

def errNoIngestFromAPI (id : String) : String :=
  quotedId id ++ " declares API ingestion support (api: true) but doesn\x27t implement ingestFromAPI()"

def warnNoQuerySchema (id : String) : String :=
  quotedId id ++ " supports API ingestion but doesn\x27t provide getAPIQuerySchema(). This is recommended for UI generation."

def warnNoEndpoints (id : String) : String :=
  quotedId id ++ " supports API ingestion but doesn\x27t declare available endpoints in capabilities.apiEndpoints"

def warnAPIUndeclared (id : String) : String :=
  quotedId id ++ " implements ingestFromAPI() but declares api: false in capabilities. Consider setting api: true."

def errNoGenerate (id : String) : String :=
  quotedId id ++ " must implement generate()"

def errNoGetSpecifications (id : String) : String :=
  quotedId id ++ " must implement getSpecifications()"

def errNoGetPromptsDir (id : String) : String :=
  quotedId id ++ " must implement getPromptsDir()"

def errNoGetTemplatesDir (id : String) : String :=
  quotedId id ++ " must implement getTemplatesDir()"

/-- The three required-identity checks at the top of `validatePlugin`
(JavaScript falsiness of a string field is emptiness). -/
def identityErrors (p : FrameworkPlugin) : List String :=
  (if p.id = "" then [errNoId] else []) ++
  (if p.version = "" then [errNoVersion] else []) ++
  (if p.description = "" then [errNoDescription] else [])

/-- Emptiness of an optional string list (`!x || x.length === 0`). -/
def emptyOpt (o : Option (List String)) : Bool :=
  match o with
  | none => true
  | some l => l.isEmpty

/-- `validatePlugin` of plugin-validation: identity checks, early return when
`getIngestionCapabilities` is missing or throws, capability-consistency
checks, then the four required-method checks. -/
def validatePlugin (p : FrameworkPlugin) : PluginValidationResult :=
  let e1 := identityErrors p
  match p.getIngestionCapabilities with
  | none => ⟨false, e1 ++ [errNoGIC p.id], []⟩
  | some (Except.error m) => ⟨false, e1 ++ [errGICThrew p.id m], []⟩
  | some (Except.ok caps) =>
    let e2 := if !caps.file && !caps.api then [errNoMethod p.id] else []
    let e3 := if caps.file && !p.ingestFromFile then [errNoIngestFromFile p.id] else []
    let w1 := if caps.file && emptyOpt caps.fileFormats then [warnNoFileFormats p.id] else []
    let w2 := if !caps.file && p.ingestFromFile then [warnFileUndeclared p.id] else []
    let e4 := if caps.api && !p.ingestFromAPI then [errNoIngestFromAPI p.id] else []
    let w3 := if caps.api && !p.getAPIQuerySchema then [warnNoQuerySchema p.id] else []
    let w4 := if caps.api && emptyOpt caps.apiEndpoints then [warnNoEndpoints p.id] else []
    let w5 := if !caps.api && p.ingestFromAPI then [warnAPIUndeclared p.id] else []
    let e5 :=
      (if !p.generate then [errNoGenerate p.id] else []) ++
      (if !p.getSpecifications then [errNoGetSpecifications p.id] else []) ++
      (if !p.getPromptsDir then [errNoGetPromptsDir p.id] else []) ++
      (if !p.getTemplatesDir then [errNoGetTemplatesDir p.id] else [])
    let errors := e1 ++ e2 ++ e3 ++ e4 ++ e5
    ⟨errors.isEmpty, errors, w1 ++ w2 ++ w3 ++ w4 ++ w5⟩

/-- The in-memory catalog: a JavaScript `Map` in insertion order. -/
abbrev RegMap := List (String × FrameworkPlugin)

def regHas (m : RegMap) (id : String) : Bool :=
  m.any (fun kv => kv.1 == id)

def regGet (m : RegMap) (id : String) : Option FrameworkPlugin :=
  (m.find? (fun kv => kv.1 == id)).map Prod.snd

/-- `Map.set`: update in place when the key exists, append otherwise. -/
def regSet (m : RegMap) (id : String) (p : FrameworkPlugin) : RegMap :=
  if regHas m id then m.map (fun kv => if kv.1 == id then (id, p) else kv)
  else m ++ [(id, p)]

/-- Outcome of a `register` call: a thrown `PluginValidationError` (with the
plugin id and itemised error list) together with the catalog state when the
throw happens, or success with the new state and the surfaced warnings. -/
inductive RegisterOutcome where
  | threw (pluginId : String) (errors : List String) (st : RegMap)
  | ok (st : RegMap) (warnings : List String)

def dupWarning (id : String) : String :=
  "[PluginRegistry] Plugin \"" ++ id ++ "\" is already registered. Overwriting."

/-- `PluginRegistry.register` of plugin-registry.ts: validate, throw before
touching the catalog on failure, warn-and-overwrite on a duplicate id. -/
def register (st : RegMap) (p : FrameworkPlugin) : RegisterOutcome :=
  let v := validatePlugin p
  if v.valid then
    RegisterOutcome.ok (regSet st p.id p)
      (v.warnings ++ (if regHas st p.id then [dupWarning p.id] else []))
  else RegisterOutcome.threw p.id v.errors st

/-- `PluginRegistry.getPlugin` of plugin-registry.ts: instance or `undefined`. -/
def getPlugin (st : RegMap) (id : String) : Option FrameworkPlugin :=
  regGet st id

def altDupMsg (id existingVersion : String) : String :=
  "Plugin with ID \"" ++ id ++ "\" is already registered. Existing plugin: " ++ existingVersion

/-- `register` of the alternate registry (unnamed part): throws on duplicate
id, performs no validation. -/
def altRegister (st : RegMap) (p : FrameworkPlugin) : Except String RegMap :=
  if regHas st p.id then
    Except.error (altDupMsg p.id
      (match regGet st p.id with | some q => q.version | none => "undefined"))
  else Except.ok (regSet st p.id p)

def altNotFoundMsg (id : String) (available : List String) : String :=
  "Plugin not found: \"" ++ id ++ "\"\n" ++ "Available plugins: " ++
    (if available.isEmpty then "(none registered)"
     else String.intercalate ", " available)

/-- `getPlugin` of the alternate registry: throws when the id is absent. -/
def altGetPlugin (st : RegMap) (id : String) : Except String FrameworkPlugin :=
  match regGet st id with
  | some p => Except.ok p
  | none => Except.error (altNotFoundMsg id (st.map Prod.fst))

/-- The backtick character. -/
def bq : Char := "`".data.headI

/-- The opener of a json-tagged fence followed by a newline. -/
def jsonOpen : Chars := "```json\n".data

/-- The opener of an untagged fence, `"```\n"`. -/
def fenceOpen : Chars := "```\n".data

/-- The closer `"\n```"`. -/
def fenceClose : Chars := "\n```".data

/-- A string-list response consisting of a JSON body in a `json`-tagged fence. -/
def fenceWrapJson (body : Chars) : Chars := jsonOpen ++ body ++ fenceClose

/-- A string-list response consisting of a JSON body in an untagged fence. -/
def fenceWrapPlain (body : Chars) : Chars := fenceOpen ++ body ++ fenceClose

/-- Observe whether a value is a string (used to separate constructors). -/
def isStrB : Value → Bool
  | .str _ => true
  | _ => false

/-- Observe the length of a string value. -/
def strLen : Value → Nat
  | .str s => s.length
  | _ => 0

/-- A concrete generation context exactly as `generateReport` seeds it
(plugin id `x`, an empty-object bundle, timestamp `T`): its `bundle` key
holds an object, so the source's `context.bundle.stats` read succeeds. -/
def ctxSeeded : Ctx := seedContext "x".data (Value.obj []) "T".data

/-- The seeded context after a generated variable named `metadata` has been
appended by the generation loop. -/
def ctxSeededMeta : Ctx := ctxSeeded ++ [(kMetadata, Value.str "M".data)]

/-- A variable definition with no declared inputs. -/
def varNoInputs : VarDef := ⟨"v".data, "text".data, "p".data, []⟩

/-- A two-variable specification for the claim C1 witness. -/
def specTwoVars : List VarDef :=
  [⟨"summary".data, "text".data, "s.md".data, []⟩,
   ⟨"keywords".data, tStringList, "k.md".data, ["ctx.summary".data]⟩]

/-- Constant oracles for the claim C1 witness. -/
def genConst : VarDef → Ctx → Value :=
  generateVariable (fun _ => []) (fun _ _ => []) (fun _ => "ok".data)

/-- The seed context of the claim C1 witness. -/
def seedTwoVars : Ctx := seedContext "x".data (Value.obj []) []

/-- A plugin failing every identity check, used as the claim C7 witness. -/
def pluginAllMissing : FrameworkPlugin :=
  ⟨"", "", "", none, false, false, false, false, false, false, false⟩

/-- A concrete plugin that passes validation (file-capable, all required
methods implemented). -/
def pluginOk : FrameworkPlugin :=
  ⟨"aplugin", "1.0.0", "a plugin", some (Except.ok ⟨true, false, some ["csv"], none⟩),
   true, false, false, true, true, true, true⟩

/-- A catalog already holding `pluginOk` under its id. -/
def catalogWithPluginOk : RegMap := [("aplugin", pluginOk)]

/-- A plugin whose `getIngestionCapabilities` is missing and whose required
methods are also all missing, for the claim C10 witness. -/
def pluginNoCaps : FrameworkPlugin :=
  ⟨"w", "1.0.0", "d", none, false, false, false, false, false, false, false⟩

theorem ctxGet_nil (k : Chars) : ctxGet [] k = .undefined := rfl

theorem ctxGet_cons (a : Chars × Value) (m : Ctx) (k : Chars) :
    ctxGet (a :: m) k = if a.1 = k then a.2 else ctxGet m k := by
  by_cases h : a.1 = k
  · simp [ctxGet, List.find?_cons_of_pos, h]
  · rw [ctxGet, List.find?_cons_of_neg _ (by simpa using h), if_neg h, ctxGet]

theorem ctxHas_cons (a : Chars × Value) (m : Ctx) (k : Chars) :
    ctxHas (a :: m) k = ((a.1 == k) || ctxHas m k) := by
  simp [ctxHas]

theorem replaceKey_fst (k : Chars) (v : Value) (kv : Chars × Value) :
    (replaceKey k v kv).1 = kv.1 := by
  by_cases h : kv.1 = k <;> simp [replaceKey, h]

theorem ctxHas_iff_mem (m : Ctx) (k : Chars) :
    ctxHas m k = true ↔ k ∈ m.map Prod.fst := by
  induction m with
  | nil => simp [ctxHas]
  | cons a m ih =>
    rw [ctxHas_cons]
    by_cases h : a.1 = k
    · simp [h]
    · have hb : (a.1 == k) = false := by simpa using h
      simp [hb, Ne.symm h, ih]

theorem ctxGet_append_new (m : Ctx) (k : Chars) (v : Value)
    (h : ctxHas m k = false) : ctxGet (m ++ [(k, v)]) k = v := by
  induction m with
  | nil => simp [ctxGet_cons]
  | cons a m ih =>
    rw [ctxHas_cons, Bool.or_eq_false_iff] at h
    have ha : ¬ a.1 = k := by simpa using h.1
    rw [List.cons_append, ctxGet_cons, if_neg ha]
    exact ih h.2

theorem ctxGet_map_replace (m : Ctx) (k : Chars) (v : Value) :
    ctxGet (m.map (replaceKey k v)) k =
      if ctxHas m k then v else .undefined := by
  induction m with
  | nil => simp [ctxGet, ctxHas]
  | cons a m ih =>
    rw [List.map_cons, ctxGet_cons, ctxHas_cons]
    by_cases h : a.1 = k
    · have hb : (a.1 == k) = true := by simpa using h
      simp [replaceKey, hb]
    · have hb : (a.1 == k) = false := by simpa using h
      rw [replaceKey, hb]
      simp only [Bool.false_eq_true, if_false, if_neg h, hb, Bool.false_or]
      exact ih

theorem ctxGet_set_self (m : Ctx) (k : Chars) (v : Value) :
    ctxGet (ctxSet m k v) k = v := by
  by_cases h : ctxHas m k
  · rw [ctxSet, if_pos h, ctxGet_map_replace, if_pos h]
  · simp only [Bool.not_eq_true] at h
    rw [ctxSet, h]
    simp only [Bool.false_eq_true, if_false]
    exact ctxGet_append_new m k v h

theorem ctxGet_append_ne (m : Ctx) (k k' : Chars) (v : Value)
    (h : k' ≠ k) : ctxGet (m ++ [(k', v)]) k = ctxGet m k := by
  induction m with
  | nil => simp [ctxGet_cons, ctxGet_nil, h]
  | cons a m ih =>
    rw [List.cons_append, ctxGet_cons, ctxGet_cons]
    by_cases ha : a.1 = k
    · rw [if_pos ha, if_pos ha]
    · rw [if_neg ha, if_neg ha]
      exact ih

theorem ctxGet_map_replace_ne (m : Ctx) (k k' : Chars) (v : Value)
    (h : k' ≠ k) :
    ctxGet (m.map (replaceKey k' v)) k = ctxGet m k := by
  induction m with
  | nil => simp [ctxGet]
  | cons a m ih =>
    rw [List.map_cons, ctxGet_cons, ctxGet_cons]
    by_cases ha : a.1 = k'
    · have hb : (a.1 == k') = true := by simpa using ha
      rw [replaceKey, hb]
      simp only [if_pos]
      rw [if_neg h, if_neg (ha ▸ h : ¬ a.1 = k)]
      exact ih
    · have hb : (a.1 == k') = false := by simpa using ha
      rw [replaceKey, hb]
      simp only [Bool.false_eq_true, if_false]
      by_cases hc : a.1 = k
      · rw [if_pos hc, if_pos hc]
      · rw [if_neg hc, if_neg hc]
        exact ih

theorem ctxGet_set_ne (m : Ctx) (k k' : Chars) (v : Value)
    (h : k' ≠ k) : ctxGet (ctxSet m k' v) k = ctxGet m k := by
  by_cases hs : ctxHas m k'
  · rw [ctxSet, if_pos hs]
    exact ctxGet_map_replace_ne m k k' v h
  · simp only [Bool.not_eq_true] at hs
    rw [ctxSet, hs]
    simp only [Bool.false_eq_true, if_false]
    exact ctxGet_append_ne m k k' v h

theorem ctxSet_keys (m : Ctx) (k : Chars) (v : Value) :
    (ctxSet m k v).map Prod.fst =
      if ctxHas m k then m.map Prod.fst else m.map Prod.fst ++ [k] := by
  by_cases h : ctxHas m k
  · rw [ctxSet, if_pos h, if_pos h, List.map_map]
    apply List.map_congr_left
    intro kv _
    exact replaceKey_fst k v kv
  · simp only [Bool.not_eq_true] at h
    rw [ctxSet, h]
    simp [h]

theorem runVariables_nil (gen : VarDef → Ctx → Value) (c : Ctx) :
    runVariables gen [] c = c := rfl

theorem runVariables_cons (gen : VarDef → Ctx → Value) (v : VarDef)
    (xs : List VarDef) (c : Ctx) :
    runVariables gen (v :: xs) c =
      runVariables gen xs (ctxSet c v.name (gen v c)) := rfl

theorem runVariables_append (gen : VarDef → Ctx → Value) (xs ys : List VarDef)
    (c : Ctx) :
    runVariables gen (xs ++ ys) c = runVariables gen ys (runVariables gen xs c) := by
  induction xs generalizing c with
  | nil => rfl
  | cons v xs ih =>
    rw [List.cons_append, runVariables_cons, runVariables_cons]
    exact ih _

theorem runVariables_get_of_not_mem (gen : VarDef → Ctx → Value)
    (xs : List VarDef) (c : Ctx) (k : Chars)
    (h : k ∉ xs.map VarDef.name) :
    ctxGet (runVariables gen xs c) k = ctxGet c k := by
  induction xs generalizing c with
  | nil => rfl
  | cons v xs ih =>
    simp only [List.map_cons, List.mem_cons, not_or] at h
    rw [runVariables_cons, ih _ h.2]
    exact ctxGet_set_ne c k v.name (gen v c) (fun he => h.1 he.symm)

theorem runVariables_keys (gen : VarDef → Ctx → Value) (xs : List VarDef)
    (c : Ctx) (hd : ∀ v ∈ xs, v.name ∉ c.map Prod.fst)
    (hn : (xs.map VarDef.name).Nodup) :
    (runVariables gen xs c).map Prod.fst = c.map Prod.fst ++ xs.map VarDef.name := by
  induction xs generalizing c with
  | nil => simp [runVariables_nil]
  | cons v xs ih =>
    rw [List.map_cons] at hn
    rw [List.nodup_cons] at hn
    have hv : ctxHas c v.name = false := by
      rw [← Bool.not_eq_true, ctxHas_iff_mem]
      exact hd v (List.mem_cons_self v xs)
    have hkeys : (ctxSet c v.name (gen v c)).map Prod.fst =
        c.map Prod.fst ++ [v.name] := by
      rw [ctxSet_keys, if_neg (by simp [hv])]
    have hd' : ∀ w ∈ xs, w.name ∉ (ctxSet c v.name (gen v c)).map Prod.fst := by
      intro w hw
      rw [hkeys]
      intro hmem
      rcases List.mem_append.mp hmem with hc | hh
      · exact hd w (List.mem_cons_of_mem v hw) hc
      · rcases List.mem_singleton.mp hh with he
        exact hn.1 (he ▸ List.mem_map_of_mem VarDef.name hw)
    rw [runVariables_cons, ih _ hd' hn.2, hkeys, List.map_cons, List.append_assoc]
    rfl

theorem runVariables_value (gen : VarDef → Ctx → Value) (spec : List VarDef)
    (seed : Ctx) (hn : (spec.map VarDef.name).Nodup)
    (j k : Nat) (vj : VarDef) (hjk : j < k) (hk : k ≤ spec.length)
    (hj : spec.get? j = some vj) :
    ctxGet (runVariables gen (spec.take k) seed) vj.name =
      gen vj (runVariables gen (spec.take j) seed) := by
  have hjlen : j < spec.length := lt_of_lt_of_le hjk hk
  rw [List.get?_eq_getElem?, List.getElem?_eq_some_iff] at hj
  obtain ⟨hjb, hvj⟩ := hj
  have hsplit : spec.take k = spec.take (j+1) ++ (spec.drop (j+1)).take (k - (j+1)) := by
    rw [← List.take_add]
    congr 1
    omega
  have htj : spec.take (j+1) = spec.take j ++ [vj] := by
    rw [List.take_succ]
    have : spec[j]? = some vj := by
      rw [List.getElem?_eq_some_iff]
      exact ⟨hjb, hvj⟩
    rw [this]
    rfl
  have hnotin : vj.name ∉ ((spec.drop (j+1)).take (k - (j+1))).map VarDef.name := by
    intro hmem
    rw [List.mem_map] at hmem
    obtain ⟨w, hw, hwname⟩ := hmem
    have hw' : w ∈ spec.drop (j+1) := List.take_subset _ _ hw
    rw [List.mem_iff_getElem] at hw'
    obtain ⟨i, hi, hieq⟩ := hw'
    rw [List.getElem_drop] at hieq
    have hilen : j + 1 + i < spec.length := by
      have := hi
      simp only [List.length_drop] at this
      omega
    have hmapn : (spec.map VarDef.name).get ⟨j + 1 + i, by simpa using hilen⟩ =
        (spec.map VarDef.name).get ⟨j, by simpa using hjlen⟩ := by
      simp only [List.get_eq_getElem, List.getElem_map]
      rw [hieq, hvj, hwname]
    have hval : j + 1 + i = j := by
      have h2 := hmapn
      rw [List.get_eq_getElem, List.get_eq_getElem, hn.getElem_inj_iff] at h2
      exact h2
    omega
  rw [hsplit, runVariables_append, runVariables_get_of_not_mem _ _ _ _ hnotin,
    htj, runVariables_append, runVariables_cons, runVariables_nil]
  exact ctxGet_set_self _ _ _

theorem runTrace_names (gen : VarDef → Ctx → Value) (xs : List VarDef) (c : Ctx) :
    (runTrace gen xs c).map Prod.fst = xs.map VarDef.name := by
  induction xs generalizing c with
  | nil => rfl
  | cons v xs ih => simp [runTrace, ih]

theorem runTrace_get (gen : VarDef → Ctx → Value) (xs : List VarDef) (c : Ctx)
    (k : Nat) :
    (runTrace gen xs c).get? k =
      (xs.get? k).map (fun v => (v.name, runVariables gen (xs.take k) c)) := by
  induction xs generalizing c k with
  | nil => simp [runTrace]
  | cons v xs ih =>
    cases k with
    | zero => simp [runTrace, runVariables_nil]
    | succ k =>
      simp only [runTrace, List.get?_cons_succ, ih, List.take_succ_cons,
        runVariables_cons]

theorem overlayPrev_nil (pc : Ctx) : overlayPrev [] pc = pc := rfl

theorem overlayPrev_cons (a : Chars × Value) (entries : Ctx) (pc : Ctx) :
    overlayPrev (a :: entries) pc =
      overlayPrev entries (if overlaySkip a.1 then pc else ctxSet pc a.1 a.2) := by
  rw [overlayPrev, overlayPrev, List.foldl_cons]

theorem overlayPrev_get_of_not_mem (entries : Ctx) (k : Chars) :
    ∀ pc : Ctx, k ∉ entries.map Prod.fst →
      ctxGet (overlayPrev entries pc) k = ctxGet pc k := by
  induction entries with
  | nil => intro pc _; rfl
  | cons a entries ih =>
    intro pc h
    simp only [List.map_cons, List.mem_cons, not_or] at h
    rw [overlayPrev_cons]
    by_cases hs : overlaySkip a.1
    · rw [if_pos hs]
      exact ih _ h.2
    · rw [if_neg hs, ih _ h.2]
      exact ctxGet_set_ne pc k a.1 a.2 (fun he => h.1 he.symm)

theorem overlayPrev_get_mem (entries : Ctx) (k : Chars) (v : Value)
    (hskip : overlaySkip k = false) :
    ∀ pc : Ctx, (entries.map Prod.fst).Nodup → (k, v) ∈ entries →
      ctxGet (overlayPrev entries pc) k = v := by
  induction entries with
  | nil => intro pc _ hmem; cases hmem
  | cons a entries ih =>
    intro pc hnodup hmem
    rw [List.map_cons, List.nodup_cons] at hnodup
    rw [overlayPrev_cons]
    rcases List.mem_cons.mp hmem with he | ht
    · have ha1 : a.1 = k := by rw [← he]
      have ha2 : a.2 = v := by rw [← he]
      rw [ha1, hskip]
      simp only [Bool.false_eq_true, if_false]
      have hnot : k ∉ entries.map Prod.fst := ha1 ▸ hnodup.1
      rw [overlayPrev_get_of_not_mem entries k _ hnot, ha2]
      exact ctxGet_set_self pc k v
    · exact ih _ hnodup.2 ht

theorem ctxGet_of_mem_nodup (m : Ctx) (k : Chars) (v : Value)
    (hnodup : (m.map Prod.fst).Nodup) (hmem : (k, v) ∈ m) :
    ctxGet m k = v := by
  induction m with
  | nil => cases hmem
  | cons a m ih =>
    rw [List.map_cons, List.nodup_cons] at hnodup
    rcases List.mem_cons.mp hmem with he | ht
    · rw [ctxGet_cons, if_pos (by rw [← he]), ← he]
    · rw [ctxGet_cons]
      have : a.1 ≠ k := by
        intro he
        exact hnodup.1 (he ▸ List.mem_map_of_mem Prod.fst ht)
      rw [if_neg this]
      exact ih hnodup.2 ht

theorem ctxGet_mem_of_has (m : Ctx) (k : Chars) :
    k ∈ m.map Prod.fst → (k, ctxGet m k) ∈ m := by
  induction m with
  | nil => intro h; cases h
  | cons a m ih =>
    intro h
    rw [ctxGet_cons]
    by_cases ha : a.1 = k
    · rw [if_pos ha, ← ha, Prod.mk.eta]
      exact List.mem_cons_self a m
    · rw [if_neg ha]
      rcases List.mem_cons.mp (List.map_cons Prod.fst a m ▸ h) with he | ht
      · exact absurd he.symm ha
      · exact List.mem_cons_of_mem a (ih ht)

theorem regGet_cons (a : String × FrameworkPlugin) (m : RegMap) (id : String) :
    regGet (a :: m) id = if a.1 = id then some a.2 else regGet m id := by
  by_cases h : a.1 = id
  · simp [regGet, List.find?_cons_of_pos, h]
  · rw [regGet, List.find?_cons_of_neg _ (by simpa using h), if_neg h, regGet]

theorem regHas_iff_isSome (m : RegMap) (id : String) :
    regHas m id = true ↔ (regGet m id).isSome = true := by
  induction m with
  | nil => simp [regHas, regGet]
  | cons a m ih =>
    rw [regGet_cons]
    by_cases h : a.1 = id
    · simp [regHas, h]
    · have hb : (a.1 == id) = false := by simpa using h
      simp only [regHas, List.any_cons, hb, Bool.false_or, if_neg h]
      exact ih

theorem regGet_set_self (m : RegMap) (id : String) (p : FrameworkPlugin) :
    regGet (regSet m id p) id = some p := by
  by_cases h : regHas m id
  · rw [regSet, if_pos h]
    induction m with
    | nil => simp [regHas] at h
    | cons a m ih =>
      by_cases ha : a.1 = id
      · have hb : (a.1 == id) = true := by simpa using ha
        simp only [List.map_cons, hb, if_pos]
        rw [regGet_cons, if_pos rfl]
      · have hb : (a.1 == id) = false := by simpa using ha
        simp only [List.map_cons, hb, Bool.false_eq_true, if_false]
        rw [regGet_cons, if_neg ha]
        apply ih
        simp only [regHas, List.any_cons, hb, Bool.false_or] at h
        exact h
  · simp only [Bool.not_eq_true] at h
    rw [regSet, h]
    simp only [Bool.false_eq_true, if_false]
    induction m with
    | nil => simp [regGet, List.find?]
    | cons a m ih =>
      simp only [regHas, List.any_cons, Bool.or_eq_false_iff] at h
      rw [List.cons_append, regGet_cons, if_neg (by simpa using h.1)]
      exact ih h.2

theorem regSet_keys_of_has (m : RegMap) (id : String) (p : FrameworkPlugin)
    (h : regHas m id = true) :
    (regSet m id p).map Prod.fst = m.map Prod.fst := by
  rw [regSet, if_pos h, List.map_map]
  apply List.map_congr_left
  intro kv _
  by_cases hk : kv.1 = id
  · simp [Function.comp, hk]
  · have : (kv.1 == id) = false := by simpa using hk
    simp [Function.comp, this]

theorem fence3_eq : fence3 = bq :: bq :: bq :: [] := rfl

theorem fenceJsonTag_eq :
    fenceJsonTag = bq :: bq :: bq :: 'j' :: 's' :: 'o' :: 'n' :: [] := rfl

theorem jsonOpen_eq :
    jsonOpen = bq :: bq :: bq :: 'j' :: 's' :: 'o' :: 'n' :: '\n' :: [] := rfl

theorem fenceOpen_eq : fenceOpen = bq :: bq :: bq :: '\n' :: [] := rfl

theorem fenceClose_eq : fenceClose = '\n' :: fence3 := rfl

theorem dropWhile_wsp_cons_false (c : Char) (s : Chars) (h : wsp c = false) :
    (c :: s).dropWhile wsp = c :: s := by
  rw [List.dropWhile_cons, h]
  simp

theorem trimChars_eq_self (s : Chars) (a b : Char) (t u : Chars)
    (hs1 : s = a :: t) (hs2 : s = u ++ [b])
    (ha : wsp a = false) (hb : wsp b = false) : trimChars s = s := by
  rw [trimChars]
  conv in s.dropWhile wsp => rw [hs1]
  rw [dropWhile_wsp_cons_false a t ha, ← hs1, hs2, List.reverse_append,
    List.reverse_singleton, List.singleton_append,
    dropWhile_wsp_cons_false b u.reverse hb, List.reverse_cons,
    List.reverse_reverse]

theorem stripLeadFenceJson_skip (a : Char) (t : Chars)
    (h : Char.toLower a ≠ bq) : stripLeadFenceJson (a :: t) = a :: t := by
  rw [stripLeadFenceJson, if_neg]
  intro hc
  rw [fenceJsonTag_eq, List.take_succ_cons, List.map_cons, List.cons.injEq] at hc
  exact h hc.1

theorem stripLeadFence_skip (a : Char) (t : Chars) (h : a ≠ bq) :
    stripLeadFence (a :: t) = a :: t := by
  rw [stripLeadFence, if_neg]
  intro hc
  rw [fence3_eq, List.take_succ_cons, List.cons.injEq] at hc
  exact h hc.1

theorem stripTailFence_skip (u : Chars) (b : Char) (h : b ≠ bq) :
    stripTailFence (u ++ [b]) = u ++ [b] := by
  rw [stripTailFence, if_neg]
  intro hc
  rw [List.reverse_append, List.reverse_singleton, List.singleton_append,
    fence3_eq, List.take_succ_cons, List.cons.injEq] at hc
  exact h hc.1

theorem stripLeadFenceJson_fire (rest : Chars) :
    stripLeadFenceJson (jsonOpen ++ rest) = rest.dropWhile wsp := by
  rw [stripLeadFenceJson, if_pos]
  · rw [jsonOpen_eq]
    simp only [List.cons_append, List.nil_append, List.drop_succ_cons,
      List.drop_zero]
    rw [List.dropWhile_cons]
    simp [wsp]
  · rw [jsonOpen_eq]
    simp only [List.cons_append, List.nil_append, List.take_succ_cons,
      List.take_zero, List.map_cons, List.map_nil]
    rw [fenceJsonTag_eq]
    decide

theorem stripLeadFenceJson_skip_untagged (rest : Chars) :
    stripLeadFenceJson (fenceOpen ++ rest) = fenceOpen ++ rest := by
  rw [stripLeadFenceJson, if_neg]
  intro h
  rw [fenceOpen_eq] at h
  rw [fenceJsonTag_eq] at h
  simp only [List.cons_append, List.nil_append, List.take_succ_cons,
    List.map_cons, List.cons.injEq] at h
  exact absurd h.2.2.2.1 (by decide)

theorem stripLeadFence_fire (rest : Chars) :
    stripLeadFence (fenceOpen ++ rest) = rest.dropWhile wsp := by
  rw [stripLeadFence, if_pos]
  · rw [fenceOpen_eq]
    simp only [List.cons_append, List.nil_append, List.drop_succ_cons,
      List.drop_zero]
    rw [List.dropWhile_cons]
    simp [wsp]
  · rw [fenceOpen_eq, fence3_eq]
    simp [List.take_succ_cons]

theorem stripTailFence_fire (u : Chars) (b : Char) (hb : wsp b = false) :
    stripTailFence ((u ++ [b]) ++ fenceClose) = u ++ [b] := by
  have hrev : ((u ++ [b]) ++ fenceClose).reverse =
      bq :: bq :: bq :: '\n' :: b :: u.reverse := by
    rw [fenceClose_eq, fence3_eq]
    simp [List.reverse_append]
  rw [stripTailFence, if_pos]
  · rw [hrev]
    simp only [List.drop_succ_cons, List.drop_zero]
    rw [List.dropWhile_cons]
    simp only [show wsp '\n' = true by decide, if_pos]
    rw [dropWhile_wsp_cons_false b u.reverse hb, List.reverse_cons,
      List.reverse_reverse]
  · rw [hrev, fence3_eq]
    simp [List.take_succ_cons]

theorem splitDot_nil : splitDot [] = [[]] := rfl

theorem splitDot_dot (rest : Chars) :
    splitDot ('.' :: rest) = [] :: splitDot rest := by
  simp [splitDot]

theorem splitDot_pre (pre : Chars) (h : ∀ c ∈ pre, c ≠ '.') (rest : Chars) :
    splitDot (pre ++ '.' :: rest) = pre :: splitDot rest := by
  induction pre with
  | nil => simp [splitDot]
  | cons c pre ih =>
    have hc : c ≠ '.' := h c (List.mem_cons_self c pre)
    have h' : ∀ d ∈ pre, d ≠ '.' := fun d hd => h d (List.mem_cons_of_mem c hd)
    rw [List.cons_append, splitDot, if_neg hc, ih h']

/-- Counterexample to claim C2: the generation context seeded by
`generateReport` has no `metadata` key at all — the seed object literal
contains only `bundle`, `stats`, `samples`, `timestamp` and `title`. -/
theorem seedContext_no_metadata_counterexample :
    ctxHas (seedContext "p".data (Value.obj []) []) kMetadata = false := rfl

/-- Claim C2 (amended): at the start of every `generateReport` run the
generation context is seeded with exactly the keys `bundle`, `stats`
(equal to `bundle.stats`), `samples` (equal to `bundle.samples`), a
generation `timestamp`, and a derived `title` — and, contrary to the
original claim, `metadata` is not among the seeded keys. -/
theorem seedContext_spec (pluginId : Chars) (bundle : Value) (timestamp : Chars) :
    (seedContext pluginId bundle timestamp).map Prod.fst =
      [kBundle, kStats, kSamples, kTimestamp, kTitle] ∧
    ctxGet (seedContext pluginId bundle timestamp) kBundle = bundle ∧
    ctxGet (seedContext pluginId bundle timestamp) kStats = getProp bundle kStats ∧
    ctxGet (seedContext pluginId bundle timestamp) kSamples = getProp bundle kSamples ∧
    ctxGet (seedContext pluginId bundle timestamp) kTimestamp = Value.str timestamp ∧
    ctxGet (seedContext pluginId bundle timestamp) kTitle =
      Value.str (deriveTitle pluginId) ∧
    ctxHas (seedContext pluginId bundle timestamp) kMetadata = false :=
  ⟨rfl, rfl, rfl, rfl, rfl, rfl, rfl⟩

/-- Counterexample to claim C3: on the context exactly as `generateReport`
seeds it (whose `bundle` key holds an object, so the source's
`context.bundle.stats` read succeeds and the overlay runs), `timestamp` is
not among the four keys the claim says are excluded from the overlay, yet
the engine does not overlay it — the prompt context does not receive it. -/
theorem overlay_timestamp_counterexample :
    ctxGet ctxSeeded kBundle = Value.obj [] ∧
    kTimestamp ∈ ctxSeeded.map Prod.fst ∧
    kTimestamp ≠ kBundle ∧ kTimestamp ≠ kStats ∧
    kTimestamp ≠ kSamples ∧ kTimestamp ≠ kMetadata ∧
    ctxGet (buildPromptContext varNoInputs ctxSeeded) kTimestamp ≠
      ctxGet ctxSeeded kTimestamp := by
  refine ⟨rfl, by decide, by decide, by decide, by decide, by decide, ?_⟩
  intro h
  exact absurd (congrArg isStrB h) (by decide)

/-- Claim C3 (amended): for every context whose `bundle` key holds an
object (as every context built by `generateReport` does — elsewhere the
source throws at `context.bundle.stats` before the overlay runs), the
overlay copies every generation-context entry into the prompt context
except the keys `bundle`, `stats`, `samples` and `timestamp` — the set
excluded by the source is these four, with `timestamp` (not `metadata`)
the fourth reserved key, so a context entry named `metadata` would be
overlaid. -/
theorem overlay_spec (varDef : VarDef) (context : Ctx) (k : Chars)
    (_hbundle : ∃ flds : List (Chars × Value),
      ctxGet context kBundle = Value.obj flds)
    (hnodup : (context.map Prod.fst).Nodup)
    (hmem : k ∈ context.map Prod.fst)
    (hb : k ≠ kBundle) (hst : k ≠ kStats) (hsa : k ≠ kSamples)
    (hts : k ≠ kTimestamp) :
    ctxGet (buildPromptContext varDef context) k = ctxGet context k := by
  have hskip : overlaySkip k = false := by
    simp [overlaySkip, hb, hst, hsa, hts]
  have hmem' : (k, ctxGet context k) ∈ context := ctxGet_mem_of_has context k hmem
  rw [buildPromptContext]
  exact overlayPrev_get_mem context k (ctxGet context k) hskip _ hnodup hmem'

/-- Witness for the amended claim C3: on the seeded context (bundle an
object) extended with a generated variable named `metadata`, that variable
is overlaid into the prompt context. -/
theorem overlay_spec_witness :
    ctxGet (buildPromptContext varNoInputs ctxSeededMeta) kMetadata =
      ctxGet ctxSeededMeta kMetadata :=
  overlay_spec varNoInputs ctxSeededMeta kMetadata ⟨[], rfl⟩
    (by decide) (by decide) (by decide) (by decide) (by decide) (by decide)

/-- Counterexample to claim C4: a variable of declared type `text` (a
non-string-list type) stores the raw response without trimming, so a
response with surrounding whitespace is not equal to its trimmed form. -/
theorem coerce_text_untrimmed_counterexample :
    "text".data ≠ tStringList ∧
    coerceResponse "text".data " hi ".data ≠
      Value.str (trimChars " hi ".data) := by
  refine ⟨by decide, ?_⟩
  intro h
  exact absurd (congrArg strLen h) (by decide)

/-- Claim C4 (amended): only `markdown`-typed responses are trimmed; every
declared type other than `string_list` and `markdown` stores the raw
response verbatim, untrimmed. -/
theorem coerce_trim_spec :
    (∀ r : Chars, coerceResponse tMarkdown r = Value.str (trimChars r)) ∧
    (∀ vtype r : Chars, vtype ≠ tStringList → vtype ≠ tMarkdown →
      coerceResponse vtype r = Value.str r) := by
  constructor
  · intro r
    rw [coerceResponse, if_neg (by decide), if_pos rfl]
  · intro vtype r h1 h2
    rw [coerceResponse, if_neg h1, if_neg h2]

/-- Witness for the amended claim C4 at concrete inputs. -/
theorem coerce_trim_spec_witness :
    coerceResponse "text".data " x ".data = Value.str " x ".data ∧
    coerceResponse tMarkdown " x ".data = Value.str (trimChars " x ".data) :=
  ⟨coerce_trim_spec.2 "text".data " x ".data (by decide) (by decide),
   coerce_trim_spec.1 " x ".data⟩

/-- Claim C5: for a string-list variable, a JSON-array response — bare, or
wrapped in a code fence optionally tagged `json` — coerces to the result of
parsing that array directly; and whenever the fence-stripped content does
not parse to an array, the coercion falls back to the single-element list
holding the whole raw response trimmed, raising no error (the coercion is a
total function). -/
theorem stringList_coercion_spec (body t u : Chars) (xs : List Value)
    (h1 : body = '[' :: t) (h2 : body = u ++ [']'])
    (h3 : parseJson body = some (Value.arr xs)) :
    coerceResponse tStringList body = Value.arr xs ∧
    coerceResponse tStringList (fenceWrapJson body) = Value.arr xs ∧
    coerceResponse tStringList (fenceWrapPlain body) = Value.arr xs ∧
    (∀ r : Chars,
      (∀ ys : List Value,
        parseJson (trimChars (cleanFences r)) ≠ some (Value.arr ys)) →
      coerceResponse tStringList r = Value.arr [Value.str (trimChars r)]) := by
  have hwB : wsp '[' = false := by decide
  have hwE : wsp ']' = false := by decide
  have htrim : trimChars body = body := trimChars_eq_self body '[' ']' t u h1 h2 hwB hwE
  have hdropB : List.dropWhile wsp body = body := by
    rw [h1]
    exact dropWhile_wsp_cons_false _ _ hwB
  have hbodyClose : List.dropWhile wsp (body ++ fenceClose) = body ++ fenceClose := by
    rw [h1, List.cons_append]
    exact dropWhile_wsp_cons_false _ _ hwB
  have hskipLeadBody : stripLeadFence (body ++ fenceClose) = body ++ fenceClose := by
    rw [h1, List.cons_append]
    exact stripLeadFence_skip '[' _ (by decide)
  have hTail : stripTailFence (body ++ fenceClose) = body := by
    rw [h2]
    exact stripTailFence_fire u ']' hwE
  refine ⟨?_, ?_, ?_, ?_⟩
  · rw [coerceResponse, if_pos rfl, coerceStringList, cleanFences, htrim]
    rw [show stripLeadFenceJson body = body by
      rw [h1]; exact stripLeadFenceJson_skip '[' t (by decide)]
    rw [show stripLeadFence body = body by
      rw [h1]; exact stripLeadFence_skip '[' t (by decide)]
    rw [show stripTailFence body = body by
      rw [h2]; exact stripTailFence_skip u ']' (by decide)]
    rw [htrim, h3]
  · have htrimF : trimChars (fenceWrapJson body) = fenceWrapJson body := by
      refine trimChars_eq_self _ bq bq
        ((bq :: bq :: 'j' :: 's' :: 'o' :: 'n' :: '\n' :: []) ++ body ++ fenceClose)
        (jsonOpen ++ body ++ ('\n' :: bq :: bq :: [])) ?_ ?_ (by decide) (by decide)
      · rw [fenceWrapJson, jsonOpen_eq]
        simp
      · rw [fenceWrapJson]
        rw [show fenceClose = ('\n' :: bq :: bq :: []) ++ [bq] from rfl]
        simp [List.append_assoc]
    rw [coerceResponse, if_pos rfl, coerceStringList, cleanFences, htrimF]
    rw [show fenceWrapJson body = jsonOpen ++ (body ++ fenceClose) by
      rw [fenceWrapJson, List.append_assoc]]
    rw [stripLeadFenceJson_fire (body ++ fenceClose), hbodyClose,
      hskipLeadBody, hTail, htrim, h3]
  · have htrimF : trimChars (fenceWrapPlain body) = fenceWrapPlain body := by
      refine trimChars_eq_self _ bq bq
        ((bq :: bq :: '\n' :: []) ++ body ++ fenceClose)
        (fenceOpen ++ body ++ ('\n' :: bq :: bq :: [])) ?_ ?_ (by decide) (by decide)
      · rw [fenceWrapPlain, fenceOpen_eq]
        simp
      · rw [fenceWrapPlain]
        rw [show fenceClose = ('\n' :: bq :: bq :: []) ++ [bq] from rfl]
        simp [List.append_assoc]
    rw [coerceResponse, if_pos rfl, coerceStringList, cleanFences, htrimF]
    rw [show fenceWrapPlain body = fenceOpen ++ (body ++ fenceClose) by
      rw [fenceWrapPlain, List.append_assoc]]
    rw [stripLeadFenceJson_skip_untagged (body ++ fenceClose),
      stripLeadFence_fire (body ++ fenceClose), hbodyClose, hTail, htrim, h3]
  · intro r hr
    rw [coerceResponse, if_pos rfl, coerceStringList]
    cases hp : parseJson (trimChars (cleanFences r)) with
    | none => rfl
    | some v =>
      cases v with
      | arr ys => exact absurd hp (hr ys)
      | undefined => rfl
      | null => rfl
      | bool b => rfl
      | num l => rfl
      | str s => rfl
      | obj o => rfl

/-- Witness for claim C5: the fenced response from the spec's scenario,
`"```json\n[\"a\",\"b\"]\n```"`, coerces to the two-element list. -/
theorem stringList_coercion_spec_witness :
    coerceResponse tStringList (fenceWrapJson "[\"a\",\"b\"]".data) =
      Value.arr [Value.str "a".data, Value.str "b".data] ∧
    coerceResponse tStringList "[\"a\",\"b\"]".data =
      Value.arr [Value.str "a".data, Value.str "b".data] := by
  have h := stringList_coercion_spec "[\"a\",\"b\"]".data "\"a\",\"b\"]".data
    "[\"a\",\"b\"".data [Value.str "a".data, Value.str "b".data] rfl rfl rfl
  exact ⟨h.2.1, h.1⟩

theorem foldl_getProp_absent (segs : List Chars) :
    segs.foldl getProp Value.undefined = Value.undefined := by
  induction segs with
  | nil => rfl
  | cons s segs ih =>
    rw [List.foldl_cons]
    exact ih

/-- Claim C6: reference resolution is total (embodied here by
`resolveInputReference` being a total function into `Value`, with absence
represented by `undefined` rather than an error): a `bundle`-rooted
reference walks successive property accesses from the context's bundle
(`bundle.samples.main` equals direct property access), a `ctx`-rooted
reference walks from the whole context, any other reference is a direct
context key lookup (of the whole reference string), and once an
intermediate property is missing the rest of the walk stays absent. -/
theorem resolveInputReference_spec :
    (∀ (context : Ctx) (rest : Chars),
      resolveInputReference (kBundle ++ '.' :: rest) context =
        (splitDot rest).foldl getProp (ctxGet context kBundle)) ∧
    (∀ (context : Ctx) (rest : Chars),
      resolveInputReference (kCtxRoot ++ '.' :: rest) context =
        (splitDot rest).foldl getProp (Value.obj context)) ∧
    (∀ (reference : Chars) (context : Ctx) (root : Chars) (rest : List Chars),
      splitDot reference = root :: rest → root ≠ kBundle → root ≠ kCtxRoot →
      resolveInputReference reference context = ctxGet context reference) ∧
    (∀ segs : List Chars, segs.foldl getProp Value.undefined = Value.undefined) ∧
    (∀ context : Ctx,
      resolveInputReference "bundle.samples.main".data context =
        getProp (getProp (ctxGet context kBundle) kSamples) kMain) := by
  refine ⟨?_, ?_, ?_, foldl_getProp_absent, ?_⟩
  · intro context rest
    have hs : splitDot (kBundle ++ '.' :: rest) = kBundle :: splitDot rest :=
      splitDot_pre kBundle (by decide) rest
    rw [resolveInputReference]
    simp only [hs, List.headI, List.drop_one, List.tail_cons, if_pos]
  · intro context rest
    have hs : splitDot (kCtxRoot ++ '.' :: rest) = kCtxRoot :: splitDot rest :=
      splitDot_pre kCtxRoot (by decide) rest
    rw [resolveInputReference]
    simp only [hs, List.headI, List.drop_one, List.tail_cons]
    rw [if_neg (show ¬ kCtxRoot = kBundle from by decide)]
    exact if_pos trivial
  · intro reference context root rest hsplit hne1 hne2
    rw [resolveInputReference]
    simp only [hsplit, List.headI]
    rw [if_neg hne1, if_neg hne2]
  · intro context
    rfl

/-- Witness for claim C6 at concrete inputs: the dotted `bundle` walk on a
concrete bundle, and a plain reference looked up as a direct context key. -/
theorem resolveInputReference_spec_witness :
    resolveInputReference ("bundle".data ++ '.' :: "stats".data)
        [(kBundle, Value.obj [("stats".data, Value.num "7".data)])] =
      (splitDot "stats".data).foldl getProp
        (ctxGet [(kBundle, Value.obj [("stats".data, Value.num "7".data)])] kBundle) ∧
    resolveInputReference "score".data [("score".data, Value.num "1".data)] =
      ctxGet [("score".data, Value.num "1".data)] "score".data := by
  constructor
  · exact resolveInputReference_spec.1
      [(kBundle, Value.obj [("stats".data, Value.num "7".data)])] "stats".data
  · exact resolveInputReference_spec.2.2.1 "score".data
      [("score".data, Value.num "1".data)] "score".data [] rfl
      (by decide) (by decide)

/-- Claim C1: for every valid specification (variable names distinct and
disjoint from the seeded base keys), `generateReport` generates variables in
exactly the declared order, and at the moment variable `k`'s prompt context
is built the generation context holds exactly the base keys seeded at
initialisation plus variables `0..k-1`, each variable `j` bound to the
coerced value `generateVariable` produced from the context at step `j`. -/
theorem generation_order_spec (prompts : Chars → Chars)
    (render : Chars → Ctx → Chars) (llm : Chars → Chars)
    (spec : List VarDef) (pluginId : Chars) (bundle : Value) (timestamp : Chars)
    (hnodup : ((seedContext pluginId bundle timestamp).map Prod.fst ++
      spec.map VarDef.name).Nodup) :
    (runTrace (generateVariable prompts render llm) spec
        (seedContext pluginId bundle timestamp)).map Prod.fst =
      spec.map VarDef.name ∧
    (∀ k : Nat,
      (runTrace (generateVariable prompts render llm) spec
          (seedContext pluginId bundle timestamp)).get? k =
        (spec.get? k).map (fun v =>
          (v.name, runVariables (generateVariable prompts render llm)
            (spec.take k) (seedContext pluginId bundle timestamp)))) ∧
    (∀ k : Nat, k ≤ spec.length →
      (runVariables (generateVariable prompts render llm) (spec.take k)
          (seedContext pluginId bundle timestamp)).map Prod.fst =
        (seedContext pluginId bundle timestamp).map Prod.fst ++
          (spec.take k).map VarDef.name) ∧
    (∀ (j k : Nat) (vj : VarDef), j < k → k ≤ spec.length →
      spec.get? j = some vj →
      ctxGet (runVariables (generateVariable prompts render llm) (spec.take k)
          (seedContext pluginId bundle timestamp)) vj.name =
        generateVariable prompts render llm vj
          (runVariables (generateVariable prompts render llm) (spec.take j)
            (seedContext pluginId bundle timestamp))) := by
  rw [List.nodup_append] at hnodup
  obtain ⟨hseedN, hnamesN, hdisj⟩ := hnodup
  refine ⟨runTrace_names _ spec _, fun k => runTrace_get _ spec _ k, ?_, ?_⟩
  · intro k hk
    apply runVariables_keys
    · intro v hv hmemSeed
      exact hdisj hmemSeed
        (List.mem_map_of_mem VarDef.name (List.take_subset k spec hv))
    · rw [List.map_take]
      exact hnamesN.sublist (List.take_sublist k (spec.map VarDef.name))
  · intro j k vj hjk hk hj
    exact runVariables_value _ spec _ hnamesN j k vj hjk hk hj

/-- Witness for claim C1 at a concrete two-variable specification. -/
theorem generation_order_spec_witness :
    (runTrace genConst specTwoVars seedTwoVars).map Prod.fst =
      specTwoVars.map VarDef.name ∧
    ctxGet (runVariables genConst (specTwoVars.take 2) seedTwoVars)
        "summary".data =
      genConst ⟨"summary".data, "text".data, "s.md".data, []⟩
        (runVariables genConst (specTwoVars.take 0) seedTwoVars) := by
  have h := generation_order_spec (fun _ => []) (fun _ _ => [])
    (fun _ => "ok".data) specTwoVars "x".data (Value.obj []) [] (by decide)
  exact ⟨h.1, h.2.2.2 0 2 _ (by decide) (by decide) rfl⟩

/-- Claim C7: for every plugin failing validation, `register` throws a
`PluginValidationError` carrying the plugin id and the itemised error list,
and the catalog is exactly the catalog before the call — no entry is added,
removed, or replaced (the throw happens before any `Map.set`). -/
theorem register_invalid_spec (st : RegMap) (p : FrameworkPlugin)
    (h : (validatePlugin p).valid = false) :
    register st p = RegisterOutcome.threw p.id (validatePlugin p).errors st := by
  unfold register
  rw [if_neg]
  rw [h]
  simp

/-- Witness for claim C7: registering an invalid plugin throws and leaves
the empty catalog empty. -/
theorem register_invalid_spec_witness :
    register [] pluginAllMissing =
      RegisterOutcome.threw "" (validatePlugin pluginAllMissing).errors [] :=
  register_invalid_spec [] pluginAllMissing rfl

/-- Counterexample to claim C8: the alternate registry implementation in the
source raises a duplicate-id error when a valid plugin's id is already
registered, instead of overwriting: the claim fails on that cited code. -/
theorem altRegister_duplicate_counterexample :
    (validatePlugin pluginOk).valid = true ∧
    regHas catalogWithPluginOk pluginOk.id = true ∧
    altRegister catalogWithPluginOk pluginOk =
      Except.error (altDupMsg "aplugin" "1.0.0") :=
  ⟨rfl, rfl, rfl⟩

/-- Claim C8 (amended): in the validating registry of plugin-registry.ts,
re-registering a valid plugin under an existing id succeeds — the entry is
overwritten in place (same key set, new instance) and a non-fatal duplicate
warning is surfaced after the validation warnings; the alternate registry
implementation instead throws a duplicate-id error. -/
theorem register_duplicate_spec (st : RegMap) (p : FrameworkPlugin)
    (hv : (validatePlugin p).valid = true) (hd : regHas st p.id = true) :
    register st p = RegisterOutcome.ok (regSet st p.id p)
        ((validatePlugin p).warnings ++ [dupWarning p.id]) ∧
    regGet (regSet st p.id p) p.id = some p ∧
    (regSet st p.id p).map Prod.fst = st.map Prod.fst := by
  refine ⟨?_, regGet_set_self st p.id p, regSet_keys_of_has st p.id p hd⟩
  unfold register
  rw [if_pos hv, hd]
  simp

/-- Witness for the amended claim C8: re-registering `pluginOk` overwrites
and warns. -/
theorem register_duplicate_spec_witness :
    register catalogWithPluginOk pluginOk =
      RegisterOutcome.ok (regSet catalogWithPluginOk "aplugin" pluginOk)
        ((validatePlugin pluginOk).warnings ++ [dupWarning "aplugin"]) :=
  (register_duplicate_spec catalogWithPluginOk pluginOk rfl rfl).1

/-- Counterexample to claim C9: the alternate registry's `getPlugin` throws
a not-found error for an absent id rather than returning a signal. -/
theorem altGetPlugin_missing_counterexample :
    altGetPlugin [] "missing" =
      Except.error (altNotFoundMsg "missing" []) := rfl

/-- Claim C9 (amended): `getPlugin` of the validating registry in
plugin-registry.ts returns the registered instance when the id is present
and `undefined` (here `none`) when it is absent, and never throws — it is a
total lookup; the alternate registry's `getPlugin` instead throws a
not-found error for absent ids. -/
theorem getPlugin_total_spec (st : RegMap) (id : String) :
    ((getPlugin st id).isSome = regHas st id) ∧
    (∀ p : FrameworkPlugin, getPlugin st id = some p → (id, p) ∈ st) ∧
    (regHas st id = false → getPlugin st id = none) := by
  refine ⟨?_, ?_, ?_⟩
  · cases hh : regHas st id with
    | true => exact (regHas_iff_isSome st id).mp hh
    | false =>
      cases hg : (getPlugin st id).isSome with
      | true =>
        exact absurd ((regHas_iff_isSome st id).mpr hg) (by rw [hh]; simp)
      | false => rfl
  · intro p hp
    rw [getPlugin, regGet] at hp
    cases hf : st.find? (fun kv => kv.1 == id) with
    | none => rw [hf] at hp; cases hp
    | some kv =>
      rw [hf] at hp
      have hk : kv.1 = id := by simpa using List.find?_some hf
      have hmem : kv ∈ st := List.mem_of_find?_eq_some hf
      have hv : kv.2 = p := by simpa using hp
      rw [← hk, ← hv, Prod.mk.eta]
      exact hmem
  · intro hh
    cases hg : getPlugin st id with
    | none => rfl
    | some p =>
      have : (getPlugin st id).isSome = true := by rw [hg]; rfl
      exact absurd ((regHas_iff_isSome st id).mpr this) (by rw [hh]; simp)

/-- Witness for the amended claim C9: a present id resolves to its entry and
an absent id resolves to `none`, with no error in either case. -/
theorem getPlugin_total_spec_witness :
    ("aplugin", pluginOk) ∈ catalogWithPluginOk ∧
    getPlugin catalogWithPluginOk "nope" = none :=
  ⟨(getPlugin_total_spec catalogWithPluginOk "aplugin").2.1 pluginOk rfl,
   (getPlugin_total_spec catalogWithPluginOk "nope").2.2 rfl⟩

theorem quoted_data (id s : String) :
    (quotedId id ++ s).data =
      "Plugin \"".data ++ (id.data ++ ("\"".data ++ s.data)) := by
  rw [quotedId, String.data_append, String.data_append, String.data_append]
  simp [List.append_assoc]

theorem quoted_append_data (id S m : String) :
    ((quotedId id ++ S) ++ m).data =
      "Plugin \"".data ++ (id.data ++ ("\"".data ++ (S.data ++ m.data))) := by
  rw [String.data_append, quoted_data]
  simp [List.append_assoc]

/-- An id-interpolated message never equals a message whose eighth character
is not a double quote (all three fixed identity messages qualify). -/
theorem quoted_ne_fixed7 (id s fx : String)
    (hfx : fx.data.getD 7 ' ' ≠ '"') : quotedId id ++ s ≠ fx := by
  intro h
  have hd := congrArg String.data h
  rw [quoted_data] at hd
  have h7 := congrArg (fun l => l.getD 7 ' ') hd
  simp only at h7
  rw [List.getD_append _ _ _ 7 (by decide)] at h7
  apply hfx
  rw [← h7]
  decide

/-- Two id-interpolated messages with different suffixes differ. -/
theorem quoted_ne_samePre (id s1 s2 : String) (hne : s1.data ≠ s2.data) :
    quotedId id ++ s1 ≠ quotedId id ++ s2 := by
  intro h
  have hd := congrArg String.data h
  rw [quoted_data, quoted_data] at hd
  exact hne (List.append_cancel_left (List.append_cancel_left
    (List.append_cancel_left hd)))

/-- An id-interpolated message with one suffix never equals an
id-interpolated message with a different suffix followed by free text
(the thrown-error message shape), provided the suffixes already differ at
their second character. -/
theorem quoted_ne_threwShape (id s1 S m : String)
    (h1 : ¬ s1.data.getD 1 ' ' = S.data.getD 1 ' ') (hS : 1 < S.data.length) :
    quotedId id ++ s1 ≠ (quotedId id ++ S) ++ m := by
  intro h
  have hd := congrArg String.data h
  rw [quoted_data, quoted_append_data] at hd
  have h2 := List.append_cancel_left (List.append_cancel_left
    (List.append_cancel_left hd))
  apply h1
  rw [h2, List.getD_append _ _ _ 1 hS]

/-- Each member of `identityErrors` is one of the three fixed messages. -/
theorem mem_identityErrors (p : FrameworkPlugin) (x : String)
    (hx : x ∈ identityErrors p) :
    x = errNoId ∨ x = errNoVersion ∨ x = errNoDescription := by
  unfold identityErrors at hx
  rcases List.mem_append.mp hx with h12 | h3
  · rcases List.mem_append.mp h12 with hA | hB
    · left
      by_cases hc : p.id = ""
      · simpa [hc] using hA
      · simp [hc] at hA
    · right; left
      by_cases hc : p.version = ""
      · simpa [hc] using hB
      · simp [hc] at hB
  · right; right
    by_cases hc : p.description = ""
    · simpa [hc] using h3
    · simp [hc] at h3

/-- A required-method absence message (suffix starting `"\" must implement"`)
is never in the early-return error list of `validatePlugin`. -/
theorem methodMsg_not_mem_early (p : FrameworkPlugin) (s1 : String)
    (hch : s1.data.getD 1 ' ' = 'm')
    (hne1 : s1.data ≠ " must implement getIngestionCapabilities()".data) :
    (p.getIngestionCapabilities = none →
      quotedId p.id ++ s1 ∉ (validatePlugin p).errors) ∧
    (∀ m : String, p.getIngestionCapabilities = some (Except.error m) →
      quotedId p.id ++ s1 ∉ (validatePlugin p).errors) := by
  constructor
  · intro hnone hmem
    unfold validatePlugin at hmem
    rw [hnone] at hmem
    simp only at hmem
    rcases List.mem_append.mp hmem with hid | hone
    · rcases mem_identityErrors p _ hid with h | h | h <;>
        exact quoted_ne_fixed7 p.id s1 _ (by decide) h
    · rw [List.mem_singleton] at hone
      have hone' : quotedId p.id ++ s1 =
          quotedId p.id ++ " must implement getIngestionCapabilities()" := hone
      exact quoted_ne_samePre p.id s1 _ hne1 hone'
  · intro m hthrew hmem
    unfold validatePlugin at hmem
    rw [hthrew] at hmem
    simp only at hmem
    rcases List.mem_append.mp hmem with hid | hone
    · rcases mem_identityErrors p _ hid with h | h | h <;>
        exact quoted_ne_fixed7 p.id s1 _ (by decide) h
    · rw [List.mem_singleton] at hone
      refine quoted_ne_threwShape p.id s1
        " getIngestionCapabilities() threw an error: " m ?_ (by decide) hone
      rw [hch]
      decide

/-- Claim C10: when `getIngestionCapabilities` is missing or throws,
`validatePlugin` returns early with `valid = false` and empty warnings, and
the error list omits the four required-method absence messages (`generate`,
`getSpecifications`, `getPromptsDir`, `getTemplatesDir`) even when those
methods are also missing — their checks are skipped. -/
theorem validatePlugin_early_return (p : FrameworkPlugin)
    (h : p.getIngestionCapabilities = none ∨
      ∃ m : String, p.getIngestionCapabilities = some (Except.error m)) :
    (validatePlugin p).valid = false ∧
    (validatePlugin p).warnings = [] ∧
    errNoGenerate p.id ∉ (validatePlugin p).errors ∧
    errNoGetSpecifications p.id ∉ (validatePlugin p).errors ∧
    errNoGetPromptsDir p.id ∉ (validatePlugin p).errors ∧
    errNoGetTemplatesDir p.id ∉ (validatePlugin p).errors := by
  have hgen := methodMsg_not_mem_early p " must implement generate()"
    (by decide) (by decide)
  have hspec := methodMsg_not_mem_early p " must implement getSpecifications()"
    (by decide) (by decide)
  have hpd := methodMsg_not_mem_early p " must implement getPromptsDir()"
    (by decide) (by decide)
  have htd := methodMsg_not_mem_early p " must implement getTemplatesDir()"
    (by decide) (by decide)
  rcases h with hnone | ⟨m, hm⟩
  · refine ⟨?_, ?_, hgen.1 hnone, hspec.1 hnone, hpd.1 hnone, htd.1 hnone⟩
    · unfold validatePlugin
      rw [hnone]
    · unfold validatePlugin
      rw [hnone]
  · refine ⟨?_, ?_, hgen.2 m hm, hspec.2 m hm, hpd.2 m hm, htd.2 m hm⟩
    · unfold validatePlugin
      rw [hm]
    · unfold validatePlugin
      rw [hm]

/-- Witness for claim C10: the early return hides the absence of
`generate` even though `pluginNoCaps` does not implement it. -/
theorem validatePlugin_early_return_witness :
    pluginNoCaps.generate = false ∧
    (validatePlugin pluginNoCaps).valid = false ∧
    errNoGenerate "w" ∉ (validatePlugin pluginNoCaps).errors :=
  ⟨rfl, (validatePlugin_early_return pluginNoCaps (Or.inl rfl)).1,
   (validatePlugin_early_return pluginNoCaps (Or.inl rfl)).2.2.1⟩

end ReportingFramework
